import Mathlib

/-!
Verification of the calendar-date core (`pendulum/date.py`).

The Python class `Date` is embedded shallowly: a date is a `(year, month, day)`
triple of integers, Python's `//` and `%` (floor division, positive divisors
throughout) are Lean's `Int` `/` and `%` (Euclidean division coincides with
floor division for positive divisors), and the external calendar facilities the
source calls (`datetime.date`, `dateutil.relativedelta`, `calendar`) are
embedded by their documented arithmetic on the proleptic Gregorian calendar,
over unbounded integer years as in the specification's data model.
-/

namespace Pendulum

/-- Leap-year predicate of the proleptic Gregorian calendar
(`calendar.isleap`): divisible by 4 and not by 100 unless also by 400. -/
def isLeapYear (y : Int) : Bool :=
  y % 4 == 0 && (y % 100 != 0 || y % 400 == 0)

/-- Number of days in a month (`calendar.monthrange(year, month)[1]`). -/
def daysInMonth (y m : Int) : Int :=
  if m = 2 then (if isLeapYear y then 29 else 28)
  else if m = 4 ∨ m = 6 ∨ m = 9 ∨ m = 11 then 30
  else 31

/-- A calendar date: the `(year, month, day)` triple carried by
`pendulum.Date`. -/
structure Date where
  year : Int
  month : Int
  day : Int
deriving DecidableEq, Repr

/-- Validity invariant of a civil date, enforced by Python's `date`
constructor. -/
def isValid (d : Date) : Prop :=
  1 ≤ d.month ∧ d.month ≤ 12 ∧ 1 ≤ d.day ∧ d.day ≤ daysInMonth d.year d.month

instance (d : Date) : Decidable (isValid d) := by
  unfold isValid; infer_instance

/-- Closed-form day of year, transcribed from `Date.day_of_year`
(src/pendulum/date.py lines 122-135). -/
def day_of_year (d : Date) : Int :=
  (275 * d.month) / 9
    - (if isLeapYear d.year then 1 else 2) * ((d.month + 9) / 12)
    + d.day - 30

/-- Sum of the lengths of months `1..n` of year `y`: the brute-force
month-by-month day count. -/
def monthsCum (y : Int) : Nat → Int
  | 0 => 0
  | n + 1 => monthsCum y n + daysInMonth y (n + 1)

/-- Days of year `y` that lie strictly before month `m`. -/
def daysBeforeMonth (y m : Int) : Int :=
  monthsCum y (m - 1).toNat

/-- Brute-force day of year: count the days of the preceding months and add
the day of month. -/
def bruteDayOfYear (d : Date) : Int :=
  daysBeforeMonth d.year d.month + d.day

/-- Days before January 1 of year `y`, counted from the proleptic ordinal
epoch (ordinal 1 = January 1 of year 1), as in `datetime.date.toordinal`. -/
def daysBeforeYear (y : Int) : Int :=
  365 * (y - 1) + (y - 1) / 4 - (y - 1) / 100 + (y - 1) / 400

/-- Proleptic Gregorian ordinal of a date (`datetime.date.toordinal`). -/
def toOrdinal (d : Date) : Int :=
  daysBeforeYear d.year + bruteDayOfYear d

/-- Day of the week, Sunday = 0 .. Saturday = 6, transcribed from
`Date.day_of_week` (`self.isoweekday() % 7`, where `isoweekday` is
`(toordinal - 1) % 7 + 1`). -/
def day_of_week (d : Date) : Int :=
  ((toOrdinal d - 1) % 7 + 1) % 7

/-- Propositional unfolding of `isLeapYear`, in the shape `omega` digests. -/
theorem isLeapYear_iff (y : Int) :
    isLeapYear y = true ↔ (y % 4 = 0 ∧ (¬ y % 100 = 0 ∨ y % 400 = 0)) := by
  simp [isLeapYear]

/-- Every month has at least 28 days. -/
theorem daysInMonth_ge (y m : Int) : 28 ≤ daysInMonth y m := by
  unfold daysInMonth
  split_ifs <;> omega

/-- Every month has at most 31 days. -/
theorem daysInMonth_le (y m : Int) : daysInMonth y m ≤ 31 := by
  unfold daysInMonth
  split_ifs <;> omega

/-- Chronological comparison of dates: lexicographic on
`(year, month, day)`, as inherited from Python's `date`. -/
instance : LT Date :=
  ⟨fun a b => a.year < b.year ∨
    (a.year = b.year ∧ (a.month < b.month ∨
      (a.month = b.month ∧ a.day < b.day)))⟩

instance : LE Date :=
  ⟨fun a b => a.year < b.year ∨
    (a.year = b.year ∧ (a.month < b.month ∨
      (a.month = b.month ∧ a.day ≤ b.day)))⟩

theorem Date.lt_def (a b : Date) :
    a < b ↔ (a.year < b.year ∨
      (a.year = b.year ∧ (a.month < b.month ∨
        (a.month = b.month ∧ a.day < b.day)))) := Iff.rfl

theorem Date.le_def (a b : Date) :
    a ≤ b ↔ (a.year < b.year ∨
      (a.year = b.year ∧ (a.month < b.month ∨
        (a.month = b.month ∧ a.day ≤ b.day)))) := Iff.rfl

instance (a b : Date) : Decidable (a < b) := by
  rw [Date.lt_def]; infer_instance

instance (a b : Date) : Decidable (a ≤ b) := by
  rw [Date.le_def]; infer_instance

theorem Date.le_refl (a : Date) : a ≤ a := by
  rw [Date.le_def]; omega

theorem Date.lt_le (a b : Date) (h : a < b) : a ≤ b := by
  rw [Date.lt_def] at h; rw [Date.le_def]; omega

theorem Date.lt_of_lt_of_le (a b c : Date) (h1 : a < b) (h2 : b ≤ c) :
    a < c := by
  rw [Date.lt_def] at h1 ⊢; rw [Date.le_def] at h2; omega

theorem Date.le_trans (a b c : Date) (h1 : a ≤ b) (h2 : b ≤ c) : a ≤ c := by
  rw [Date.le_def] at h1 h2 ⊢; omega

/-- Successor date: the calendar day after `d`, with month and year
rollover (the effect of adding `timedelta(days=1)`). -/
def nextDay (d : Date) : Date :=
  if d.day < daysInMonth d.year d.month then ⟨d.year, d.month, d.day + 1⟩
  else if d.month < 12 then ⟨d.year, d.month + 1, 1⟩
  else ⟨d.year + 1, 1, 1⟩

/-- Predecessor date: the calendar day before `d` (the effect of
subtracting `timedelta(days=1)`). -/
def prevDay (d : Date) : Date :=
  if 1 < d.day then ⟨d.year, d.month, d.day - 1⟩
  else if 1 < d.month then ⟨d.year, d.month - 1, daysInMonth d.year (d.month - 1)⟩
  else ⟨d.year - 1, 12, 31⟩

/-- Shift a date by a signed number of calendar days
(`date + timedelta(days=n)`). -/
def addDays (d : Date) (n : Int) : Date :=
  if 0 ≤ n then nextDay^[n.toNat] d else prevDay^[(-n).toNat] d

/-- Month-overflow normalization performed by `relativedelta._fix`:
when `|months| > 11`, move whole years out of the months field, keeping
the sign. -/
def rdFix (years months : Int) : Int × Int :=
  if 11 < months.natAbs then
    let s : Int := if months < 0 then -1 else 1
    ((months * s) / 12 * s + years, (months * s) % 12 * s)
  else (years, months)

/-- Year/month part of `date + relativedelta(years, months, ...)`: add the
years, add the (normalized) months with a single wrap of the month into
`1..12`, then clamp the day of month to the target month's length. -/
def addMonths (d : Date) (years months : Int) : Date :=
  let p := rdFix years months
  let y1 := d.year + p.1
  let m1 := d.month + p.2
  let q : Int × Int :=
    if 12 < m1 then (y1 + 1, m1 - 12)
    else if m1 < 1 then (y1 - 1, m1 + 12)
    else (y1, m1)
  ⟨q.1, q.2, min d.day (daysInMonth q.1 q.2)⟩

/-- Transcription of `Date.add` (src/pendulum/date.py lines 277-302):
build `relativedelta(years, months, weeks, days)` and add it to the date.
`relativedelta` applies the year/month shift with day clamping first, then
the flat `weeks*7 + days` day shift. -/
def Date.add (d : Date) (years months weeks days : Int) : Date :=
  addDays (addMonths d years months) (weeks * 7 + days)

/-- Transcription of `Date.subtract` (src/pendulum/date.py lines 304-329):
`date - relativedelta(...)` equals `date + (-relativedelta(...))`, i.e.
`add` with every component negated. -/
def Date.subtract (d : Date) (years months weeks days : Int) : Date :=
  Date.add d (-years) (-months) (-weeks) (-days)

/-- Unfolding step for the cumulative month-length sum. -/
theorem monthsCum_succ (y : Int) (n : Nat) :
    monthsCum y (n + 1) = monthsCum y n + daysInMonth y (↑n + 1) := by
  rw [monthsCum]

/-- Month-length sum step in terms of `daysBeforeMonth`. -/
theorem daysBeforeMonth_succ (y m : Int) (h : 1 ≤ m) :
    daysBeforeMonth y (m + 1) = daysBeforeMonth y m + daysInMonth y m := by
  unfold daysBeforeMonth
  rw [show (m + 1 - 1).toNat = (m - 1).toNat + 1 by omega, monthsCum_succ,
    show ((m - 1).toNat : Int) + 1 = m by omega]

/-- Value of the month-length sum over the first eleven months. -/
theorem daysBeforeMonth_12 (y : Int) :
    daysBeforeMonth y 12 = 334 + (if isLeapYear y then 1 else 0) := by
  unfold daysBeforeMonth
  cases h : isLeapYear y <;> simp [monthsCum, daysInMonth, h]

/-- Counting the days before a year advances by 365 or 366 per year,
depending on leapness. -/
theorem daysBeforeYear_succ (y : Int) :
    daysBeforeYear (y + 1)
      = daysBeforeYear y + 365 + (if isLeapYear y then 1 else 0) := by
  unfold daysBeforeYear
  split_ifs with h
  · rw [isLeapYear_iff] at h; omega
  · rw [isLeapYear_iff] at h; omega

/-- Days before January are zero. -/
theorem daysBeforeMonth_one (y : Int) : daysBeforeMonth y 1 = 0 := rfl

/-- December has 31 days. -/
theorem daysInMonth_dec (y : Int) : daysInMonth y 12 = 31 := by
  norm_num [daysInMonth]

/-- Stepping to the next day preserves validity. -/
theorem isValid_nextDay (d : Date) (h : isValid d) : isValid (nextDay d) := by
  obtain ⟨y, m, dy⟩ := d
  obtain ⟨h1, h2, h3, h4⟩ := h
  have g1 := daysInMonth_ge y (m + 1)
  have g2 := daysInMonth_ge (y + 1) 1
  unfold nextDay
  dsimp only at *
  split_ifs with ha hb <;> (unfold isValid; dsimp only) <;> omega

/-- Stepping to the previous day preserves validity. -/
theorem isValid_prevDay (d : Date) (h : isValid d) : isValid (prevDay d) := by
  obtain ⟨y, m, dy⟩ := d
  obtain ⟨h1, h2, h3, h4⟩ := h
  have g1 := daysInMonth_ge y (m - 1)
  have g2 := daysInMonth_dec (y - 1)
  unfold prevDay
  dsimp only at *
  split_ifs with ha hb <;> (unfold isValid; dsimp only) <;> omega

/-- The successor day has the next ordinal. -/
theorem toOrdinal_nextDay (d : Date) (h : isValid d) :
    toOrdinal (nextDay d) = toOrdinal d + 1 := by
  obtain ⟨y, m, dy⟩ := d
  obtain ⟨h1, h2, h3, h4⟩ := h
  unfold nextDay
  dsimp only at *
  split_ifs with ha hb
  · simp only [toOrdinal, bruteDayOfYear]; omega
  · simp only [toOrdinal, bruteDayOfYear]
    have hs := daysBeforeMonth_succ y m h1
    omega
  · have hm : m = 12 := by omega
    have hd : dy = 31 := by rw [hm, daysInMonth_dec] at h4 ha; omega
    simp only [toOrdinal, bruteDayOfYear]
    rw [hm, hd, daysBeforeYear_succ, daysBeforeMonth_12, daysBeforeMonth_one]
    omega

/-- The predecessor day has the previous ordinal. -/
theorem toOrdinal_prevDay (d : Date) (h : isValid d) :
    toOrdinal (prevDay d) = toOrdinal d - 1 := by
  obtain ⟨y, m, dy⟩ := d
  obtain ⟨h1, h2, h3, h4⟩ := h
  unfold prevDay
  dsimp only at *
  split_ifs with ha hb
  · simp only [toOrdinal, bruteDayOfYear]; omega
  · simp only [toOrdinal, bruteDayOfYear]
    have hs := daysBeforeMonth_succ y (m - 1) (by omega)
    rw [show m - 1 + 1 = m by ring] at hs
    omega
  · have hm : m = 1 := by omega
    have hd : dy = 1 := by omega
    simp only [toOrdinal, bruteDayOfYear]
    rw [hm, hd, daysBeforeMonth_one]
    have hy := daysBeforeYear_succ (y - 1)
    have h12 := daysBeforeMonth_12 (y - 1)
    rw [show y - 1 + 1 = y by ring] at hy
    omega

/-- The successor day is strictly later in chronological order. -/
theorem lt_nextDay (d : Date) (h : isValid d) : d < nextDay d := by
  obtain ⟨y, m, dy⟩ := d
  obtain ⟨h1, h2, h3, h4⟩ := h
  unfold nextDay
  dsimp only at *
  split_ifs with ha hb <;> rw [Date.lt_def] <;> dsimp only <;> omega

/-- The predecessor day is strictly earlier in chronological order. -/
theorem prevDay_lt (d : Date) (h : isValid d) : prevDay d < d := by
  obtain ⟨y, m, dy⟩ := d
  obtain ⟨h1, h2, h3, h4⟩ := h
  unfold prevDay
  dsimp only at *
  split_ifs with ha hb <;> rw [Date.lt_def] <;> dsimp only <;> omega

/-- Stepping forward then backward is the identity on valid dates. -/
theorem prevDay_nextDay (d : Date) (h : isValid d) :
    prevDay (nextDay d) = d := by
  obtain ⟨y, m, dy⟩ := d
  obtain ⟨h1, h2, h3, h4⟩ := h
  have g := daysInMonth_dec y
  unfold nextDay
  dsimp only at *
  split_ifs with ha hb
  · unfold prevDay; dsimp only
    rw [if_pos (by omega)]
    simp only [Date.mk.injEq, true_and, and_true]
    omega
  · unfold prevDay; dsimp only
    rw [if_neg (by omega), if_pos (by omega),
      show m + 1 - 1 = m by ring]
    simp only [Date.mk.injEq, true_and, and_true]
    omega
  · unfold prevDay; dsimp only
    rw [if_neg (by omega), if_neg (by omega)]
    simp only [Date.mk.injEq, true_and, and_true]
    rw [show m = 12 by omega, daysInMonth_dec] at h4 ha
    omega

/-- Stepping backward then forward is the identity on valid dates. -/
theorem nextDay_prevDay (d : Date) (h : isValid d) :
    nextDay (prevDay d) = d := by
  obtain ⟨y, m, dy⟩ := d
  obtain ⟨h1, h2, h3, h4⟩ := h
  have g := daysInMonth_dec (y - 1)
  unfold prevDay
  dsimp only at *
  split_ifs with ha hb
  · unfold nextDay; dsimp only
    rw [if_pos (by omega)]
    simp only [Date.mk.injEq, true_and, and_true]
    omega
  · unfold nextDay; dsimp only
    rw [if_neg (by omega), if_pos (by omega),
      show m - 1 + 1 = m by ring]
    simp only [Date.mk.injEq, true_and, and_true]
    omega
  · unfold nextDay; dsimp only
    rw [if_neg (by omega), if_neg (by omega)]
    simp only [Date.mk.injEq, true_and, and_true]
    omega

/-- Iterated forward stepping preserves validity. -/
theorem isValid_nextDay_iter (n : Nat) (d : Date) (h : isValid d) :
    isValid (nextDay^[n] d) := by
  induction n with
  | zero => exact h
  | succ n ih => rw [Function.iterate_succ_apply']; exact isValid_nextDay _ ih

/-- Iterated backward stepping preserves validity. -/
theorem isValid_prevDay_iter (n : Nat) (d : Date) (h : isValid d) :
    isValid (prevDay^[n] d) := by
  induction n with
  | zero => exact h
  | succ n ih => rw [Function.iterate_succ_apply']; exact isValid_prevDay _ ih

/-- Iterated forward stepping advances the ordinal by the step count. -/
theorem toOrdinal_nextDay_iter (n : Nat) (d : Date) (h : isValid d) :
    toOrdinal (nextDay^[n] d) = toOrdinal d + n := by
  induction n with
  | zero => simp
  | succ n ih =>
    rw [Function.iterate_succ_apply', toOrdinal_nextDay _ (isValid_nextDay_iter n d h), ih]
    push_cast
    ring

/-- Iterated backward stepping retreats the ordinal by the step count. -/
theorem toOrdinal_prevDay_iter (n : Nat) (d : Date) (h : isValid d) :
    toOrdinal (prevDay^[n] d) = toOrdinal d - n := by
  induction n with
  | zero => simp
  | succ n ih =>
    rw [Function.iterate_succ_apply', toOrdinal_prevDay _ (isValid_prevDay_iter n d h), ih]
    push_cast
    ring

/-- Iterated forward stepping then iterated backward stepping cancels. -/
theorem prev_next_iter (n : Nat) (d : Date) (h : isValid d) :
    prevDay^[n] (nextDay^[n] d) = d := by
  induction n generalizing d with
  | zero => rfl
  | succ n ih =>
    rw [Function.iterate_succ_apply' (f := nextDay),
      Function.iterate_succ_apply (f := prevDay),
      prevDay_nextDay _ (isValid_nextDay_iter n d h), ih d h]

/-- Iterated backward stepping then iterated forward stepping cancels. -/
theorem next_prev_iter (n : Nat) (d : Date) (h : isValid d) :
    nextDay^[n] (prevDay^[n] d) = d := by
  induction n generalizing d with
  | zero => rfl
  | succ n ih =>
    rw [Function.iterate_succ_apply' (f := prevDay),
      Function.iterate_succ_apply (f := nextDay),
      nextDay_prevDay _ (isValid_prevDay_iter n d h), ih d h]

/-- Iterated forward stepping never moves a valid date earlier. -/
theorem le_nextDay_iter (n : Nat) (d : Date) (h : isValid d) :
    d ≤ nextDay^[n] d := by
  induction n with
  | zero => exact Date.le_refl d
  | succ n ih =>
    rw [Function.iterate_succ_apply']
    exact Date.le_trans _ _ _ ih
      (Date.lt_le _ _ (lt_nextDay _ (isValid_nextDay_iter n d h)))

/-- Iterated backward stepping never moves a valid date later. -/
theorem prevDay_iter_le (n : Nat) (d : Date) (h : isValid d) :
    prevDay^[n] d ≤ d := by
  induction n with
  | zero => exact Date.le_refl d
  | succ n ih =>
    rw [Function.iterate_succ_apply']
    exact Date.le_trans _ _ _
      (Date.lt_le _ _ (prevDay_lt _ (isValid_prevDay_iter n d h))) ih

/-- Shifting by a nonnegative count is iterated forward stepping. -/
theorem addDays_ofNat (d : Date) (k : Nat) : addDays d ↑k = nextDay^[k] d := by
  unfold addDays
  rw [if_pos (Int.ofNat_nonneg k)]
  simp

/-- Shifting by zero days is the identity. -/
theorem addDays_zero (d : Date) : addDays d 0 = d := rfl

/-- Day shifting preserves validity. -/
theorem isValid_addDays (d : Date) (n : Int) (h : isValid d) :
    isValid (addDays d n) := by
  unfold addDays
  split_ifs with hn
  · exact isValid_nextDay_iter _ _ h
  · exact isValid_prevDay_iter _ _ h

/-- Day shifting moves the ordinal by exactly the shift amount. -/
theorem toOrdinal_addDays (d : Date) (n : Int) (h : isValid d) :
    toOrdinal (addDays d n) = toOrdinal d + n := by
  unfold addDays
  split_ifs with hn
  · rw [toOrdinal_nextDay_iter _ _ h]; omega
  · rw [toOrdinal_prevDay_iter _ _ h]; omega

/-- Opposite day shifts cancel on valid dates. -/
theorem addDays_neg_cancel (d : Date) (n : Int) (h : isValid d) :
    addDays (addDays d n) (-n) = d := by
  rcases lt_trichotomy n 0 with hn | hn | hn
  · have e1 : addDays d n = prevDay^[(-n).toNat] d := by
      unfold addDays; rw [if_neg (by omega)]
    have e2 : addDays (addDays d n) (-n) = nextDay^[(-n).toNat] (addDays d n) := by
      unfold addDays; rw [if_pos (by omega)]
    rw [e2, e1, next_prev_iter _ _ h]
  · subst hn; rfl
  · have e1 : addDays d n = nextDay^[n.toNat] d := by
      unfold addDays; rw [if_pos (by omega)]
    have e2 : addDays (addDays d n) (-n) = prevDay^[n.toNat] (addDays d n) := by
      unfold addDays; rw [if_neg (by omega)]; norm_num
    rw [e2, e1, prev_next_iter _ _ h]

/-- Shifting forward by a positive count moves a valid date strictly
later. -/
theorem lt_addDays_of_pos (d : Date) (n : Int) (h : isValid d) (hn : 1 ≤ n) :
    d < addDays d n := by
  unfold addDays
  rw [if_pos (by omega)]
  have hk : n.toNat = (n.toNat - 1) + 1 := by omega
  rw [hk, Function.iterate_succ_apply]
  exact Date.lt_of_lt_of_le _ _ _ (lt_nextDay d h)
    (le_nextDay_iter _ _ (isValid_nextDay _ h))

/-- Characterization of the year/month shift: the target's linear month
index is the source's shifted by `years*12 + months`, the month lands in
`1..12`, and the day is the clamped day of month. -/
theorem addMonths_spec (d : Date) (ys ms : Int)
    (h1 : 1 ≤ d.month) (h2 : d.month ≤ 12) :
    (addMonths d ys ms).year * 12 + (addMonths d ys ms).month - 1
        = d.year * 12 + d.month - 1 + ys * 12 + ms
      ∧ 1 ≤ (addMonths d ys ms).month ∧ (addMonths d ys ms).month ≤ 12
      ∧ (addMonths d ys ms).day
          = min d.day
              (daysInMonth (addMonths d ys ms).year (addMonths d ys ms).month) := by
  obtain ⟨y, m, dy⟩ := d
  dsimp only at *
  simp only [addMonths, rdFix]
  split_ifs <;> exact ⟨by omega, by omega, by omega, trivial⟩

/-- The year/month shift preserves validity. -/
theorem addMonths_isValid (d : Date) (ys ms : Int) (h : isValid d) :
    isValid (addMonths d ys ms) := by
  obtain ⟨hs1, hs2, hs3, hs4⟩ := addMonths_spec d ys ms h.1 h.2.1
  have hg := daysInMonth_ge (addMonths d ys ms).year (addMonths d ys ms).month
  obtain ⟨_, _, h3, h4⟩ := h
  exact ⟨hs2, hs3, by omega, by omega⟩

/-- Shifting by zero years and zero months is the identity on valid
dates. -/
theorem addMonths_zero (d : Date) (h : isValid d) : addMonths d 0 0 = d := by
  obtain ⟨y, m, dy⟩ := d
  obtain ⟨h1, h2, h3, h4⟩ := h
  dsimp only at *
  simp only [addMonths, show rdFix 0 0 = (0, 0) from rfl, add_zero]
  rw [if_neg (by omega), if_neg (by omega)]
  simp only [Date.mk.injEq, true_and]
  omega

/-- Adding with zero weeks and days is just the year/month shift. -/
theorem add_eq_addMonths (d : Date) (ys ms : Int) :
    Date.add d ys ms 0 0 = addMonths d ys ms := by
  unfold Date.add
  rw [show (0 : Int) * 7 + 0 = 0 by ring, addDays_zero]

/-- C2: for every valid date and integer year/month delta with no week/day
part, `add` lands exactly on the target month of the shifted linear month
index, with the day clamped to the target month's length; the result is a
valid date (no exception, no rollover into the following month). -/
theorem add_months_clamps (d : Date) (years months : Int) (h : isValid d) :
    Date.add d years months 0 0
        = ⟨(d.year * 12 + (d.month - 1) + (years * 12 + months)) / 12,
           (d.year * 12 + (d.month - 1) + (years * 12 + months)) % 12 + 1,
           min d.day
             (daysInMonth
               ((d.year * 12 + (d.month - 1) + (years * 12 + months)) / 12)
               ((d.year * 12 + (d.month - 1) + (years * 12 + months)) % 12 + 1))⟩
      ∧ isValid (Date.add d years months 0 0) := by
  rw [add_eq_addMonths]
  obtain ⟨hs1, hs2, hs3, hs4⟩ := addMonths_spec d years months h.1 h.2.1
  have hv := addMonths_isValid d years months h
  set a := addMonths d years months with ha
  have hy : a.year = (d.year * 12 + (d.month - 1) + (years * 12 + months)) / 12 := by
    omega
  have hm : a.month = (d.year * 12 + (d.month - 1) + (years * 12 + months)) % 12 + 1 := by
    omega
  refine ⟨?_, hv⟩
  calc a = ⟨a.year, a.month, a.day⟩ := rfl
    _ = _ := by rw [hs4, hy, hm]

/-- Witness for C2: January 31 2024 plus one month is February 29 2024
(leap-year clamp). -/
theorem add_months_clamps_witness :
    isValid ⟨2024, 1, 31⟩ ∧ Date.add ⟨2024, 1, 31⟩ 0 1 0 0 = ⟨2024, 2, 29⟩ := by
  refine ⟨by decide, ?_⟩
  rw [(add_months_clamps ⟨2024, 1, 31⟩ 0 1 (by decide)).1]
  decide

/-- C4 (amended): the add/subtract round trip restores the original date
when the delta has no week/day part and no month-end clamping occurred in
the forward step, and also when the delta has no year/month part; a delta
mixing a month part with a week/day part can break the round trip even
without clamping. -/
theorem add_subtract_roundtrip (d : Date) (years months weeks days : Int)
    (h : isValid d) :
    (weeks = 0 → days = 0 →
        d.day ≤ daysInMonth (Date.add d years months 0 0).year
                  (Date.add d years months 0 0).month →
        Date.subtract (Date.add d years months weeks days) years months weeks days = d)
    ∧ (years = 0 → months = 0 →
        Date.subtract (Date.add d years months weeks days) years months weeks days = d) := by
  constructor
  · rintro rfl rfl hcl
    unfold Date.subtract
    simp only [neg_zero]
    rw [add_eq_addMonths] at hcl
    rw [add_eq_addMonths, add_eq_addMonths]
    obtain ⟨hs1, hs2, hs3, hs4⟩ := addMonths_spec d years months h.1 h.2.1
    have hva := addMonths_isValid d years months h
    set a := addMonths d years months with ha
    obtain ⟨ht1, ht2, ht3, ht4⟩ := addMonths_spec a (-years) (-months) hs2 hs3
    set b := addMonths a (-years) (-months) with hb
    have hd1 := h.1
    have hd2 := h.2.1
    have hby : b.year = d.year ∧ b.month = d.month := by constructor <;> omega
    have had : a.day = d.day := by omega
    have hbd : b.day = d.day := by
      rw [ht4, had, hby.1, hby.2]
      have h4 := h.2.2.2
      have h3 := h.2.2.1
      omega
    calc b = ⟨b.year, b.month, b.day⟩ := rfl
      _ = ⟨d.year, d.month, d.day⟩ := by rw [hby.1, hby.2, hbd]
      _ = d := rfl
  · rintro rfl rfl
    unfold Date.subtract
    simp only [neg_zero]
    unfold Date.add
    rw [addMonths_zero d h, addMonths_zero _ (isValid_addDays d _ h),
      show (-weeks) * 7 + (-days) = -(weeks * 7 + days) by ring]
    exact addDays_neg_cancel d _ h

/-- Witness for C4 (amended): both round trips at concrete inputs — one
month forward and back from January 15 2024, and ten days forward and back
from February 20 2024. -/
theorem add_subtract_roundtrip_witness :
    (isValid ⟨2024, 1, 15⟩
      ∧ Date.subtract (Date.add ⟨2024, 1, 15⟩ 0 1 0 0) 0 1 0 0 = ⟨2024, 1, 15⟩)
    ∧ (isValid ⟨2024, 2, 20⟩
      ∧ Date.subtract (Date.add ⟨2024, 2, 20⟩ 0 0 0 10) 0 0 0 10 = ⟨2024, 2, 20⟩) :=
  ⟨⟨by decide,
    (add_subtract_roundtrip ⟨2024, 1, 15⟩ 0 1 0 0 (by decide)).1 rfl rfl (by decide)⟩,
   ⟨by decide,
    (add_subtract_roundtrip ⟨2024, 2, 20⟩ 0 0 0 10 (by decide)).2 rfl rfl⟩⟩

/-- C4 counterexample: for the valid date January 28 2024 (day 28, so no
month-end clamping in the forward step) and the delta of one month and
three days, add followed by subtract of the same delta does not return the
original date (it yields January 30 2024). -/
theorem add_subtract_roundtrip_cex :
    isValid ⟨2024, 1, 28⟩
    ∧ (Date.mk 2024 1 28).day ≤ 28
    ∧ (Date.mk 2024 1 28).day
        ≤ daysInMonth (Date.add ⟨2024, 1, 28⟩ 0 1 0 0).year
            (Date.add ⟨2024, 1, 28⟩ 0 1 0 0).month
    ∧ Date.subtract (Date.add ⟨2024, 1, 28⟩ 0 1 0 3) 0 1 0 3 ≠ ⟨2024, 1, 28⟩
    ∧ Date.subtract (Date.add ⟨2024, 1, 28⟩ 0 1 0 3) 0 1 0 3 = ⟨2024, 1, 30⟩ := by
  decide

/-- Transcription of `Date._start_of_day`: the identity on dates. -/
def start_of_day (d : Date) : Date := d

/-- Transcription of `Date._end_of_day`: the identity on dates. -/
def end_of_day (d : Date) : Date := d

/-- Transcription of `Date._start_of_month`: day set to 1. -/
def start_of_month (d : Date) : Date := ⟨d.year, d.month, 1⟩

/-- Transcription of `Date._end_of_month`: day set to the month's
length. -/
def end_of_month (d : Date) : Date :=
  ⟨d.year, d.month, daysInMonth d.year d.month⟩

/-- Transcription of `Date._start_of_year`. -/
def start_of_year (d : Date) : Date := ⟨d.year, 1, 1⟩

/-- Transcription of `Date._end_of_year`. -/
def end_of_year (d : Date) : Date := ⟨d.year, 12, 31⟩

/-- Transcription of `Date._start_of_decade`
(`year - year % YEARS_PER_DECADE`). -/
def start_of_decade (d : Date) : Date := ⟨d.year - d.year % 10, 1, 1⟩

/-- Transcription of `Date._end_of_decade`
(`year - year % YEARS_PER_DECADE + YEARS_PER_DECADE - 1`). -/
def end_of_decade (d : Date) : Date :=
  ⟨d.year - d.year % 10 + 10 - 1, 12, 31⟩

/-- Transcription of `Date._start_of_century`
(`year - 1 - (year - 1) % YEARS_PER_CENTURY + 1`). -/
def start_of_century (d : Date) : Date :=
  ⟨d.year - 1 - (d.year - 1) % 100 + 1, 1, 1⟩

/-- Transcription of `Date._end_of_century`
(`year - 1 - (year - 1) % YEARS_PER_CENTURY + YEARS_PER_CENTURY`). -/
def end_of_century (d : Date) : Date :=
  ⟨d.year - 1 - (d.year - 1) % 100 + 100, 12, 31⟩

/-- Body of the forward weekday-scan loop of `Date.next`: check the
current date's weekday, otherwise advance one day; seven iterations always
suffice, so the fuel never runs out on the loop's actual inputs. -/
def nextAux : Nat → Date → Int → Date
  | 0, d, _ => d
  | fuel + 1, d, w =>
    if day_of_week d = w then d else nextAux fuel (Date.add d 0 0 0 1) w

/-- Forward weekday scan of `Date.next` after its argument validation:
start at the following day and advance until the weekday matches. -/
def nextSearch (d : Date) (w : Int) : Date :=
  nextAux 7 (Date.add d 0 0 0 1) w

/-- Transcription of `Date.next` (src/pendulum/date.py lines 607-629):
reject a weekday outside `0..6` (the `ValueError`), otherwise scan
forward. -/
def Date.next (d : Date) (w : Int) : Option Date :=
  if w < 0 ∨ 6 < w then none else some (nextSearch d w)

/-- Body of the backward weekday-scan loop of `Date.previous`. -/
def prevAux : Nat → Date → Int → Date
  | 0, d, _ => d
  | fuel + 1, d, w =>
    if day_of_week d = w then d else prevAux fuel (Date.subtract d 0 0 0 1) w

/-- Backward weekday scan of `Date.previous` after its argument
validation. -/
def prevSearch (d : Date) (w : Int) : Date :=
  prevAux 7 (Date.subtract d 0 0 0 1) w

/-- Transcription of `Date.previous` (src/pendulum/date.py lines
631-653). -/
def Date.previous (d : Date) (w : Int) : Option Date :=
  if w < 0 ∨ 6 < w then none else some (prevSearch d w)

/-- Transcription of `Date._start_of_week`: walk back to the configured
week-start weekday. Modelled from the spec: the process-wide `WeekAnchor`
configuration (`pendulum._WEEK_STARTS_AT`, defined outside this source
file) is passed explicitly as the valid weekday `ws`. -/
def start_of_week (ws : Int) (d : Date) : Date :=
  if day_of_week d ≠ ws then prevSearch d ws else d

/-- Transcription of `Date._end_of_week`: walk forward to the configured
week-end weekday (`pendulum._WEEK_ENDS_AT`, passed explicitly as `we`). -/
def end_of_week (we : Int) (d : Date) : Date :=
  if day_of_week d ≠ we then nextSearch d we else d

/-- Transcription of `Date.start_of` (src/pendulum/date.py lines 448-468):
dispatch on the unit name, `ValueError` (here `none`) on an unknown
unit. -/
def start_of (ws : Int) (d : Date) (unit : String) : Option Date :=
  if unit = "day" then some (start_of_day d)
  else if unit = "week" then some (start_of_week ws d)
  else if unit = "month" then some (start_of_month d)
  else if unit = "year" then some (start_of_year d)
  else if unit = "decade" then some (start_of_decade d)
  else if unit = "century" then some (start_of_century d)
  else none

/-- Transcription of `Date.end_of` (src/pendulum/date.py lines
470-489). -/
def end_of (we : Int) (d : Date) (unit : String) : Option Date :=
  if unit = "day" then some (end_of_day d)
  else if unit = "week" then some (end_of_week we d)
  else if unit = "month" then some (end_of_month d)
  else if unit = "year" then some (end_of_year d)
  else if unit = "decade" then some (end_of_decade d)
  else if unit = "century" then some (end_of_century d)
  else none

/-- C7: the century boundaries are anchored 1-based: with
`N = (year - 1) / 100 + 1` the 1-based century containing the date's year,
the century starts on January 1 of year `100*(N-1) + 1` and ends on
December 31 of year `100*N`. -/
theorem century_bounds (d : Date) (h : isValid d) :
    start_of_century d = ⟨100 * ((d.year - 1) / 100 + 1 - 1) + 1, 1, 1⟩
    ∧ end_of_century d = ⟨100 * ((d.year - 1) / 100 + 1), 12, 31⟩ := by
  unfold start_of_century end_of_century
  constructor <;> (simp only [Date.mk.injEq, and_true]; omega)

/-- Witness for C7: the century of May 5 2024 runs from January 1 2001 to
December 31 2100, and that of June 6 2000 runs from 1901 to 2000. -/
theorem century_bounds_witness :
    (isValid ⟨2024, 5, 5⟩
      ∧ start_of_century ⟨2024, 5, 5⟩ = ⟨2001, 1, 1⟩
      ∧ end_of_century ⟨2024, 5, 5⟩ = ⟨2100, 12, 31⟩)
    ∧ (isValid ⟨2000, 6, 6⟩
      ∧ start_of_century ⟨2000, 6, 6⟩ = ⟨1901, 1, 1⟩
      ∧ end_of_century ⟨2000, 6, 6⟩ = ⟨2000, 12, 31⟩) := by
  refine ⟨⟨by decide, ?_, ?_⟩, ⟨by decide, ?_, ?_⟩⟩
  · rw [(century_bounds ⟨2024, 5, 5⟩ (by decide)).1]; decide
  · rw [(century_bounds ⟨2024, 5, 5⟩ (by decide)).2]; decide
  · rw [(century_bounds ⟨2000, 6, 6⟩ (by decide)).1]; decide
  · rw [(century_bounds ⟨2000, 6, 6⟩ (by decide)).2]; decide

/-- Adding a single day through the `relativedelta` path is the successor
step. -/
theorem add_one_eq_nextDay (d : Date) (h : isValid d) :
    Date.add d 0 0 0 1 = nextDay d := by
  unfold Date.add
  rw [addMonths_zero d h, show (0 : Int) * 7 + 1 = 1 by ring]
  unfold addDays
  rw [if_pos (by omega), show ((1 : Int)).toNat = 1 from rfl,
    Function.iterate_one]

/-- Subtracting a single day through the `relativedelta` path is the
predecessor step. -/
theorem sub_one_eq_prevDay (d : Date) (h : isValid d) :
    Date.subtract d 0 0 0 1 = prevDay d := by
  unfold Date.subtract Date.add
  simp only [neg_zero]
  rw [addMonths_zero d h, show (0 : Int) * 7 + (-1) = -1 by ring]
  unfold addDays
  rw [if_neg (by omega), show (-(-1 : Int)).toNat = 1 from rfl,
    Function.iterate_one]

/-- The backward weekday scan stays valid and never moves later. -/
theorem prevAux_le (fuel : Nat) (d : Date) (w : Int) (h : isValid d) :
    isValid (prevAux fuel d w) ∧ prevAux fuel d w ≤ d := by
  induction fuel generalizing d with
  | zero => exact ⟨h, Date.le_refl d⟩
  | succ fuel ih =>
    unfold prevAux
    split_ifs with hw
    · exact ⟨h, Date.le_refl d⟩
    · rw [sub_one_eq_prevDay d h]
      obtain ⟨hv, hle⟩ := ih (prevDay d) (isValid_prevDay d h)
      exact ⟨hv, Date.le_trans _ _ _ hle (Date.lt_le _ _ (prevDay_lt d h))⟩

/-- The forward weekday scan stays valid and never moves earlier. -/
theorem le_nextAux (fuel : Nat) (d : Date) (w : Int) (h : isValid d) :
    isValid (nextAux fuel d w) ∧ d ≤ nextAux fuel d w := by
  induction fuel generalizing d with
  | zero => exact ⟨h, Date.le_refl d⟩
  | succ fuel ih =>
    unfold nextAux
    split_ifs with hw
    · exact ⟨h, Date.le_refl d⟩
    · rw [add_one_eq_nextDay d h]
      obtain ⟨hv, hle⟩ := ih (nextDay d) (isValid_nextDay d h)
      exact ⟨hv, Date.le_trans _ _ _ (Date.lt_le _ _ (lt_nextDay d h)) hle⟩

/-- The start of the week never lies after the date. -/
theorem start_of_week_le (ws : Int) (d : Date) (h : isValid d) :
    start_of_week ws d ≤ d := by
  unfold start_of_week
  split_ifs with hw
  · unfold prevSearch
    rw [sub_one_eq_prevDay d h]
    obtain ⟨_, hle⟩ := prevAux_le 7 (prevDay d) ws (isValid_prevDay d h)
    exact Date.le_trans _ _ _ hle (Date.lt_le _ _ (prevDay_lt d h))
  · exact Date.le_refl d

/-- The end of the week never lies before the date. -/
theorem le_end_of_week (we : Int) (d : Date) (h : isValid d) :
    d ≤ end_of_week we d := by
  unfold end_of_week
  split_ifs with hw
  · unfold nextSearch
    rw [add_one_eq_nextDay d h]
    obtain ⟨_, hle⟩ := le_nextAux 7 (nextDay d) we (isValid_nextDay d h)
    exact Date.le_trans _ _ _ (Date.lt_le _ _ (lt_nextDay d h)) hle
  · exact Date.le_refl d

/-- C6: for every valid date and every supported unit, the unit containing
the date starts no later than the date and ends no earlier, in
chronological order. -/
theorem start_of_le_end_of (d : Date) (unit : String) (ws we : Int)
    (h : isValid d) (hws1 : 0 ≤ ws) (hws2 : ws ≤ 6)
    (hwe1 : 0 ≤ we) (hwe2 : we ≤ 6)
    (hu : unit ∈ ["day", "week", "month", "year", "decade", "century"]) :
    ∃ s e, start_of ws d unit = some s ∧ end_of we d unit = some e
      ∧ s ≤ d ∧ d ≤ e := by
  have h1 := h.1
  have h2 := h.2.1
  have h3 := h.2.2.1
  have h4 := h.2.2.2
  have hle := daysInMonth_le d.year d.month
  fin_cases hu
  · exact ⟨d, d, rfl, rfl, Date.le_refl d, Date.le_refl d⟩
  · exact ⟨_, _, rfl, rfl, start_of_week_le ws d h, le_end_of_week we d h⟩
  · refine ⟨_, _, rfl, rfl, ?_, ?_⟩
    · rw [Date.le_def]; unfold start_of_month; dsimp only; omega
    · rw [Date.le_def]; unfold end_of_month; dsimp only; omega
  · refine ⟨_, _, rfl, rfl, ?_, ?_⟩
    · rw [Date.le_def]; unfold start_of_year; dsimp only; omega
    · rw [Date.le_def]; unfold end_of_year; dsimp only; omega
  · refine ⟨_, _, rfl, rfl, ?_, ?_⟩
    · rw [Date.le_def]; unfold start_of_decade; dsimp only; omega
    · rw [Date.le_def]; unfold end_of_decade; dsimp only; omega
  · refine ⟨_, _, rfl, rfl, ?_, ?_⟩
    · rw [Date.le_def]; unfold start_of_century; dsimp only; omega
    · rw [Date.le_def]; unfold end_of_century; dsimp only; omega

/-- Witness for C6: the bracketing evaluated for March 15 2024 with the
month unit and the default Monday/Sunday week anchors. -/
theorem start_of_le_end_of_witness :
    isValid ⟨2024, 3, 15⟩
    ∧ ∃ s e, start_of 1 ⟨2024, 3, 15⟩ "month" = some s
        ∧ end_of 0 ⟨2024, 3, 15⟩ "month" = some e
        ∧ s ≤ ⟨2024, 3, 15⟩ ∧ (⟨2024, 3, 15⟩ : Date) ≤ e :=
  ⟨by decide,
   start_of_le_end_of ⟨2024, 3, 15⟩ "month" 1 0 (by decide) (by decide)
     (by decide) (by decide) (by decide) (by simp)⟩

/-- Day of week expressed directly through the ordinal. -/
theorem day_of_week_eq (d : Date) : day_of_week d = toOrdinal d % 7 := by
  unfold day_of_week
  omega

/-- The forward scan returns the first matching day when one exists within
the fuel bound. -/
theorem nextAux_finds (fuel : Nat) (d : Date) (w : Int) (h : isValid d)
    (j : Nat) (hj : j < fuel)
    (hmatch : day_of_week (nextDay^[j] d) = w)
    (hmin : ∀ i : Nat, i < j → day_of_week (nextDay^[i] d) ≠ w) :
    nextAux fuel d w = nextDay^[j] d := by
  induction fuel generalizing d j with
  | zero => exact absurd hj (Nat.not_lt_zero j)
  | succ fuel ih =>
    unfold nextAux
    split_ifs with hw
    · have hj0 : j = 0 := by
        by_contra hne
        exact hmin 0 (by omega) hw
      subst hj0
      simp
    · rw [add_one_eq_nextDay d h]
      have hiter : ∀ i : Nat, nextDay^[i] (nextDay d) = nextDay^[i + 1] d :=
        fun i => (Function.iterate_succ_apply nextDay i d).symm
      have hj1 : 1 ≤ j := by
        rcases Nat.eq_zero_or_pos j with h0 | h0
        · subst h0; simp only [Function.iterate_zero, id_eq] at hmatch
          exact absurd hmatch hw
        · exact h0
      have hr := ih (nextDay d) (isValid_nextDay d h) (j - 1) (by omega)
        (by rw [hiter, show j - 1 + 1 = j by omega]; exact hmatch)
        (fun i hi => by rw [hiter]; exact hmin (i + 1) (by omega))
      rw [hr, hiter, show j - 1 + 1 = j by omega]

/-- C5: for every valid date and weekday `0..6`, `next` succeeds and
returns the date `k` days ahead for some `1 ≤ k ≤ 7`; that date is the
earliest strictly later date bearing the requested weekday, and when the
requested weekday is the date's own the result is exactly seven days
ahead. -/
theorem next_spec (d : Date) (w : Int) (h : isValid d)
    (hw1 : 0 ≤ w) (hw2 : w ≤ 6) :
    ∃ k : Nat, 1 ≤ k ∧ k ≤ 7
      ∧ Date.next d w = some (addDays d ↑k)
      ∧ day_of_week (addDays d ↑k) = w
      ∧ (∀ j : Nat, 1 ≤ j → j < k → day_of_week (addDays d ↑j) ≠ w)
      ∧ d < addDays d ↑k
      ∧ (w = day_of_week d → addDays d ↑k = addDays d 7) := by
  have hdow := day_of_week_eq d
  set o := toOrdinal d with ho
  set k0 : Nat := ((w - o % 7 - 1) % 7 + 1).toNat with hk0
  have hk0v : (k0 : Int) = (w - o % 7 - 1) % 7 + 1 := by omega
  have hk1 : 1 ≤ k0 := by omega
  have hk7 : k0 ≤ 7 := by omega
  have hdowk : ∀ j : Nat, day_of_week (addDays d ↑j) = (o + ↑j) % 7 := by
    intro j
    rw [day_of_week_eq, toOrdinal_addDays d ↑j h]
  have hmatch : day_of_week (addDays d ↑k0) = w := by
    rw [hdowk]; omega
  have hmin : ∀ j : Nat, 1 ≤ j → j < k0 → day_of_week (addDays d ↑j) ≠ w := by
    intro j hj1 hjk
    rw [hdowk]
    omega
  refine ⟨k0, hk1, hk7, ?_, hmatch, hmin, lt_addDays_of_pos d ↑k0 h (by omega), ?_⟩
  · unfold Date.next
    rw [if_neg (by omega)]
    unfold nextSearch
    rw [add_one_eq_nextDay d h]
    have hiter : ∀ i : Nat, nextDay^[i] (nextDay d) = nextDay^[i + 1] d :=
      fun i => (Function.iterate_succ_apply nextDay i d).symm
    have e1 : nextDay^[k0 - 1] (nextDay d) = addDays d ↑k0 := by
      rw [hiter, show k0 - 1 + 1 = k0 by omega, ← addDays_ofNat]
    have hfind := nextAux_finds 7 (nextDay d) w (isValid_nextDay d h) (k0 - 1)
      (by omega)
      (by rw [e1]; exact hmatch)
      (fun i hi => by
        rw [hiter i, ← addDays_ofNat]
        exact hmin (i + 1) (by omega) (by omega))
    rw [hfind, e1]
  · intro hww
    have : k0 = 7 := by omega
    rw [this]
    norm_num

/-- Witness for C5: the next Tuesday after Friday March 15 2024, produced
by applying the scan specification at that date and weekday. -/
theorem next_spec_witness :
    isValid ⟨2024, 3, 15⟩
    ∧ ∃ k : Nat, 1 ≤ k ∧ k ≤ 7
      ∧ Date.next ⟨2024, 3, 15⟩ 2 = some (addDays ⟨2024, 3, 15⟩ ↑k)
      ∧ day_of_week (addDays ⟨2024, 3, 15⟩ ↑k) = 2
      ∧ (∀ j : Nat, 1 ≤ j → j < k → day_of_week (addDays ⟨2024, 3, 15⟩ ↑j) ≠ 2)
      ∧ (⟨2024, 3, 15⟩ : Date) < addDays ⟨2024, 3, 15⟩ ↑k
      ∧ ((2 : Int) = day_of_week ⟨2024, 3, 15⟩ →
          addDays ⟨2024, 3, 15⟩ ↑k = addDays ⟨2024, 3, 15⟩ 7) :=
  ⟨by decide, next_spec ⟨2024, 3, 15⟩ 2 (by decide) (by decide) (by decide)⟩

/-- Transcription of the weekday branch of `Date._first_of_month`
(src/pendulum/date.py lines 726-751). The `calendar.monthcalendar` matrix
is Monday-first; the entry of row 0 at column `c` is `1 + c - fc` where
`fc` is the column of day 1 (positive entries are day numbers, the rest is
zero padding), and row 1 holds that value plus 7; the source takes row 0's
entry when positive, else row 1's. -/
def first_of_month_dow (d : Date) (w : Int) : Date :=
  let c := (w - 1) % 7
  let fc := (toOrdinal ⟨d.year, d.month, 1⟩ - 1) % 7
  let entry0 := 1 + c - fc
  ⟨d.year, d.month, if 0 < entry0 then entry0 else entry0 + 7⟩

/-- Transcription of `Date._first_of_month`: day 1 when no weekday is
requested, otherwise the month-matrix lookup. -/
def first_of_month (d : Date) (w : Option Int) : Date :=
  match w with
  | none => ⟨d.year, d.month, 1⟩
  | some dow => first_of_month_dow d dow

/-- Transcription of `Date._nth_of_month` combined with the error
translation in `Date.nth_of` (src/pendulum/date.py lines 697-724 and
780-805): `nth = 1` delegates to `first_of`; otherwise start from the
first day of the month, step `nth` times to the next requested weekday —
one step fewer when the first day already bears that weekday — and check
that the landing date is still labelled with the same year and month
(`format('YYYY-MM')` comparison); the `False` sentinel becomes the raised
`DateTimeException`, here `none`. -/
def nth_of_month (d : Date) (nth : Int) (w : Int) : Option Date :=
  if nth = 1 then some (first_of_month d (some w))
  else
    let start := first_of_month d none
    let steps := (nth - (if day_of_week start = w then 1 else 0)).toNat
    let dt := (fun x => nextSearch x w)^[steps] start
    if dt.year = d.year ∧ dt.month = d.month then some ⟨d.year, d.month, dt.day⟩
    else none

set_option maxRecDepth 40000 in
/-- C3 (amended): February 2024 has five Thursdays (the 1st, 8th, 15th,
22nd and 29th), so the fifth-Thursday query on February 2024 succeeds with
February 29 rather than reporting not-found; the fifth-Friday query on the
same month does report not-found. -/
theorem nth_of_month_feb2024 :
    nth_of_month ⟨2024, 2, 1⟩ 5 4 = some ⟨2024, 2, 29⟩
    ∧ nth_of_month ⟨2024, 2, 1⟩ 5 5 = none := by
  decide

set_option maxRecDepth 40000 in
/-- C3 counterexample: the fifth-Thursday query on February 2024 does not
report the not-found condition — February 29 2024 is a Thursday. -/
theorem nth_of_month_feb2024_cex :
    nth_of_month ⟨2024, 2, 1⟩ 5 4 ≠ none
    ∧ nth_of_month ⟨2024, 2, 1⟩ 5 4 = some ⟨2024, 2, 29⟩ := by
  decide

/-- C10: a zeroth-occurrence query is never rejected: the occurrence count
is not validated, the stepping loop runs zero times, the containment check
trivially passes, and the first day of the month is returned whatever its
weekday. -/
theorem nth_of_month_zero (d : Date) (w : Int) (h : isValid d)
    (hw1 : 0 ≤ w) (hw2 : w ≤ 6) :
    nth_of_month d 0 w = some ⟨d.year, d.month, 1⟩ := by
  unfold nth_of_month first_of_month
  rw [if_neg (by norm_num)]
  dsimp only
  split_ifs with h1 <;> simp_all

/-- Witness for C10: the zeroth Sunday of February 2024 query returns
February 1 2024, which is a Thursday. -/
theorem nth_of_month_zero_witness :
    isValid ⟨2024, 2, 1⟩ ∧ (0 : Int) ≤ 0 ∧ (0 : Int) ≤ 6
    ∧ nth_of_month ⟨2024, 2, 1⟩ 0 0 = some ⟨2024, 2, 1⟩
    ∧ day_of_week ⟨2024, 2, 1⟩ = 4 :=
  ⟨by decide, by decide, by decide,
   nth_of_month_zero ⟨2024, 2, 1⟩ 0 (by decide) (by decide) (by decide),
   by decide⟩

/-- Modelled from the spec: the elapsed-time collaborator (`Period`,
defined outside this source file) compared through `in_seconds()` on an
absolute date-to-date period: the magnitude of the day difference scaled
to seconds. -/
def diff_in_seconds_abs (a b : Date) : Int :=
  86400 * ((toOrdinal b - toOrdinal a).natAbs : Int)

/-- Transcription of `Date.closest` (src/pendulum/date.py lines 184-199):
the first candidate exactly when its elapsed distance is strictly
smaller. -/
def closest (d a b : Date) : Date :=
  if diff_in_seconds_abs d a < diff_in_seconds_abs d b then a else b

/-- Transcription of `Date.farthest` (src/pendulum/date.py lines 201-216):
the first candidate exactly when its elapsed distance is strictly
greater. -/
def farthest (d a b : Date) : Date :=
  if diff_in_seconds_abs d a > diff_in_seconds_abs d b then a else b

/-- C8: `closest` picks the first candidate exactly on strictly smaller
distance and otherwise the second, `farthest` picks the first exactly on
strictly greater distance and otherwise the second; in particular an exact
tie makes both return the second candidate. -/
theorem closest_farthest_spec (d a b : Date) :
    (((toOrdinal a - toOrdinal d).natAbs : Int)
        < ((toOrdinal b - toOrdinal d).natAbs : Int) → closest d a b = a)
    ∧ (((toOrdinal b - toOrdinal d).natAbs : Int)
        ≤ ((toOrdinal a - toOrdinal d).natAbs : Int) → closest d a b = b)
    ∧ (((toOrdinal b - toOrdinal d).natAbs : Int)
        < ((toOrdinal a - toOrdinal d).natAbs : Int) → farthest d a b = a)
    ∧ (((toOrdinal a - toOrdinal d).natAbs : Int)
        ≤ ((toOrdinal b - toOrdinal d).natAbs : Int) → farthest d a b = b) := by
  unfold closest farthest diff_in_seconds_abs
  refine ⟨?_, ?_, ?_, ?_⟩ <;> intro hlt <;> split_ifs with hc <;>
    first
      | rfl
      | (exfalso; omega)

/-- Witness for C8: distances 9 and 8 around January 10 2024 pick the
second and first candidate respectively, and an exact 5/5 tie picks the
second for both operations. -/
theorem closest_farthest_spec_witness :
    (closest ⟨2024, 1, 10⟩ ⟨2024, 1, 1⟩ ⟨2024, 1, 18⟩ = ⟨2024, 1, 18⟩)
    ∧ (farthest ⟨2024, 1, 10⟩ ⟨2024, 1, 1⟩ ⟨2024, 1, 18⟩ = ⟨2024, 1, 1⟩)
    ∧ (closest ⟨2024, 1, 10⟩ ⟨2024, 1, 5⟩ ⟨2024, 1, 15⟩ = ⟨2024, 1, 15⟩)
    ∧ (farthest ⟨2024, 1, 10⟩ ⟨2024, 1, 5⟩ ⟨2024, 1, 15⟩ = ⟨2024, 1, 15⟩) :=
  ⟨(closest_farthest_spec ⟨2024, 1, 10⟩ ⟨2024, 1, 1⟩ ⟨2024, 1, 18⟩).2.1 (by decide),
   (closest_farthest_spec ⟨2024, 1, 10⟩ ⟨2024, 1, 1⟩ ⟨2024, 1, 18⟩).2.2.1 (by decide),
   (closest_farthest_spec ⟨2024, 1, 10⟩ ⟨2024, 1, 5⟩ ⟨2024, 1, 15⟩).2.1 (by decide),
   (closest_farthest_spec ⟨2024, 1, 10⟩ ⟨2024, 1, 5⟩ ⟨2024, 1, 15⟩).2.2.2 (by decide)⟩

/-- Adding a pure day count through the `relativedelta` path is the flat
day shift. -/
theorem add_days_only (d : Date) (k : Int) (h : isValid d) :
    Date.add d 0 0 0 k = addDays d k := by
  unfold Date.add
  rw [addMonths_zero d h, show (0 : Int) * 7 + k = k by ring]

/-- Transcription of `Date.average` (src/pendulum/date.py lines 915-927):
add `int(in_days / 2)` days, the integer conversion truncating toward
zero. Modelled from the spec: `Period.in_days` on the non-absolute period
from `d` to `other` (the `Period` class lives outside this source file) is
the signed day difference. -/
def average (d other : Date) : Date :=
  Date.add d 0 0 0 (Int.tdiv (toOrdinal other - toOrdinal d) 2)

/-- C9: the average of two dates is the first date shifted by half the
signed day difference toward the other, the half taken by truncating
division toward zero (floor of the magnitude, sign restored). -/
theorem average_spec (d o : Date) (h : isValid d) :
    average d o
      = addDays d
          (if 0 ≤ toOrdinal o - toOrdinal d
            then (toOrdinal o - toOrdinal d) / 2
            else -((toOrdinal d - toOrdinal o) / 2)) := by
  unfold average
  rw [add_days_only d _ h]
  congr 1
  split_ifs with hs
  · exact Int.tdiv_eq_ediv hs (by omega)
  · rw [show toOrdinal o - toOrdinal d = -(toOrdinal d - toOrdinal o) by ring,
      Int.neg_tdiv, Int.tdiv_eq_ediv (by omega) (by omega)]

/-- Witness for C9: the average of January 10 2024 and January 5 2024 has
a signed day difference of minus five, halved toward zero to minus two,
landing on January 8 2024. -/
theorem average_spec_witness :
    isValid ⟨2024, 1, 10⟩
    ∧ average ⟨2024, 1, 10⟩ ⟨2024, 1, 5⟩
        = addDays ⟨2024, 1, 10⟩
            (if 0 ≤ toOrdinal ⟨2024, 1, 5⟩ - toOrdinal ⟨2024, 1, 10⟩
              then (toOrdinal ⟨2024, 1, 5⟩ - toOrdinal ⟨2024, 1, 10⟩) / 2
              else -((toOrdinal ⟨2024, 1, 10⟩ - toOrdinal ⟨2024, 1, 5⟩) / 2))
    ∧ average ⟨2024, 1, 10⟩ ⟨2024, 1, 5⟩ = ⟨2024, 1, 8⟩ :=
  ⟨by decide, average_spec ⟨2024, 1, 10⟩ ⟨2024, 1, 5⟩ (by decide), by decide⟩

/-- C1: for every valid date the closed-form `day_of_year` equals the
brute-force month-by-month count of days from January 1 to the date
inclusive. -/
theorem day_of_year_eq_brute (d : Date) (h : isValid d) :
    day_of_year d = bruteDayOfYear d := by
  obtain ⟨hm1, hm2, _, _⟩ := h
  unfold day_of_year bruteDayOfYear daysBeforeMonth
  interval_cases hm : d.month <;>
    cases hl : isLeapYear d.year <;>
      simp [monthsCum, daysInMonth, hl] <;> omega

/-- Witness for C1: evaluate both sides on February 29 of the leap year
2024. -/
theorem day_of_year_eq_brute_witness :
    day_of_year ⟨2024, 2, 29⟩ = bruteDayOfYear ⟨2024, 2, 29⟩ :=
  day_of_year_eq_brute ⟨2024, 2, 29⟩ (by decide)

end Pendulum
